import Mathlib

/-!
Shallow embedding of `src/pybel/io/sbgnml/sbgnml.py`, the SBGN-ML → graph
converter, together with theorems checking the specification's claims
against it.

Python strings are modelled as `String` (with character-list operations
mirroring Python's `str.split` / `str.endswith` / slicing), Python `None`
as `Option.none`, Python dictionaries as insertion-ordered association
lists, and Python exceptions as an explicit `Except PyErr` monad at the
points where the code performs a partial operation (list indexing, dict
subscription, attribute access on a possibly-`None` value).
-/

namespace Sbgnml

/-- Python truthiness of an optional string: `None` and `""` are falsy. -/
def pyTruthy : Option String → Bool
  | none => false
  | some s => !s.isEmpty

/-- Python `a or b` on optional strings: `a` when truthy, else `b`. -/
def pyOr (a b : Option String) : Option String :=
  if pyTruthy a then a else b

/-- Python `s.split(c)` on the character list of a string (always
non-empty; `"".split(c) == [""]`). -/
def splitChar (c : Char) : List Char → List (List Char)
  | [] => [[]]
  | x :: xs =>
    match splitChar c xs with
    | [] => [[]]
    | h :: t => if x == c then [] :: h :: t else (x :: h) :: t

/-- Python `s.split(c)` for strings. -/
def pySplit (s : String) (c : Char) : List String :=
  (splitChar c s.data).map String.mk

/-- Python `s.endswith(suffix)`. -/
def pyEndsWith (s suf : String) : Bool :=
  suf.data.isSuffixOf s.data

/-- Python `s[:-n]`: drop the last `n` characters. -/
def dropLast (s : String) (n : Nat) : String :=
  String.mk (s.data.take (s.data.length - n))

/-! ### Insertion-ordered dictionaries (association lists) -/

/-- Dictionary membership (`k in d`). -/
def dmem {α β : Type} [BEq α] (d : List (α × β)) (k : α) : Bool :=
  d.any (fun p => p.1 == k)

/-- Dictionary lookup (`d.get(k)` / `d[k]` when present). -/
def dget {α β : Type} [BEq α] (d : List (α × β)) (k : α) : Option β :=
  (d.find? (fun p => p.1 == k)).map (·.2)

/-- Dictionary assignment `d[k] = v`: overwrite in place, else append
(preserving Python's insertion order). -/
def dset {α β : Type} [BEq α] (d : List (α × β)) (k : α) (v : β) :
    List (α × β) :=
  if dmem d k then d.map (fun p => if p.1 == k then (k, v) else p) else d ++ [(k, v)]

/-- `defaultdict(list)` append: `d[k].append(v)` creates the entry on first
touch. -/
def dappend {α β : Type} [BEq α] (d : List (α × List β)) (k : α) (v : β) :
    List (α × List β) :=
  if dmem d k then d.map (fun p => if p.1 == k then (p.1, p.2 ++ [v]) else p)
  else d ++ [(k, [v])]

/-! ### Data model -/

/-- Entity reference: vocabulary prefix, identifier, display name, each
possibly `None`. -/
structure Entity where
  pfx : Option String
  identifier : Option String
  name : Option String
  deriving DecidableEq, Repr

/-- Compartment table entry (`{'glyph_id': …, 'entity': …, 'parent': …?}`);
the `parent` key is present only when `compartmentRef` was truthy. -/
structure Compartment where
  glyph_id : Option String
  entity : Entity
  parent : Option String
  deriving DecidableEq, Repr

/-- Constituent of a decomposed complex
(`{'entity': …, 'tags': tag}`). -/
structure Component where
  entity : Entity
  tags : Option String
  deriving DecidableEq, Repr

/-- Glyph-table entry: the three dictionary shapes the code builds
(phenotype pass, normal pass, complex pass). -/
inductive GlyphEntry where
  | phen (glyph_id : Option String) (entity : Entity)
  | norm (glyph_id : Option String) (cls : String) (entity : Entity)
      (states : List String) (compartment : Option Compartment)
  | cplx (glyph_id : Option String) (label : String)
      (components : List (Option String × Component))
  deriving DecidableEq, Repr

/-- Emitted `class` field of a glyph-table entry. -/
def GlyphEntry.cls : GlyphEntry → String
  | .phen _ _ => "phenotype"
  | .norm _ c _ _ _ => c
  | .cplx _ _ _ => "complex"

/-- Emitted `entity` field of a glyph-table entry (complex entries carry
none). -/
def GlyphEntry.entity : GlyphEntry → Option Entity
  | .phen _ e => some e
  | .norm _ _ e _ _ => some e
  | .cplx _ _ _ => none

/-! ### Input document model

An element-tree view of the parts of the document the code queries with
`findall`. -/

/-- Label child element (`label` with a `text` attribute). -/
structure XLabel where
  text : Option String
  deriving DecidableEq, Repr

/-- State child element (`state` with a `value` attribute). -/
structure XState where
  value : Option String
  deriving DecidableEq, Repr

/-- Port child element. -/
structure XPort where
  id : Option String
  deriving DecidableEq, Repr

/-- Glyph element: attributes, child labels/ports/states, embedded
vocabulary references, and nested child glyphs (used for complex
members, state variables and units of information). -/
inductive XGlyph where
  | mk (id : Option String) (cls : Option String) (compartmentRef : Option String)
      (labels : List XLabel) (ports : List XPort) (refs : List (String × String))
      (states : List XState) (children : List XGlyph)

def XGlyph.id : XGlyph → Option String | .mk i _ _ _ _ _ _ _ => i
def XGlyph.cls : XGlyph → Option String | .mk _ c _ _ _ _ _ _ => c
def XGlyph.compartmentRef : XGlyph → Option String | .mk _ _ r _ _ _ _ _ => r
def XGlyph.labels : XGlyph → List XLabel | .mk _ _ _ l _ _ _ _ => l
def XGlyph.ports : XGlyph → List XPort | .mk _ _ _ _ p _ _ _ => p
def XGlyph.refs : XGlyph → List (String × String) | .mk _ _ _ _ _ r _ _ => r
def XGlyph.states : XGlyph → List XState | .mk _ _ _ _ _ _ s _ => s
def XGlyph.children : XGlyph → List XGlyph | .mk _ _ _ _ _ _ _ c => c

/-- Arc element. -/
structure XArc where
  id : Option String
  cls : Option String
  source : Option String
  target : Option String
  deriving DecidableEq, Repr

/-- Notes body element (`notes/html/body`, `text` is the element text,
possibly `None`). -/
structure XBody where
  text : Option String
  deriving DecidableEq, Repr

/-- Map element. -/
structure XMap where
  glyphs : List XGlyph
  arcs : List XArc
  bodies : List XBody

/-- Parsed element tree: the root's `map` children. -/
structure XTree where
  maps : List XMap

/-- Python exceptions the code can raise. -/
inductive PyErr where
  | valueError (msg : String)
  | indexError
  | keyError (k : Option String)
  | attributeError
  deriving DecidableEq, Repr

/-! ### External collaborators and static tables

`pyobo.multiground`, `_get_label`, `_iter_references`,
`hgnc_name_to_id` and `chebi_name_to_id` are imported from modules not
present in the repository snapshot; they are modelled from the spec. -/

/-- Modelled from the spec: the external grounding collaborator
(`pyobo.multiground`), `ground(candidate_vocabularies, text) ->
(vocabulary, identifier, canonical_name) | (none, none, none)`; the
all-`none` outcome is `Option.none`. -/
def GroundFn : Type := List String → String → Option (String × String × String)

/-- Context bundling the external collaborators and the two preloaded
static name→identifier dictionaries (`hgnc_name_to_id`,
`chebi_name_to_id`), modelled from the spec as lookup functions. -/
structure Ctx where
  ground : GroundFn
  hgnc_name_to_id : String → Option String
  chebi_name_to_id : String → Option String

/-- Modelled from the spec: `_get_label` (from the missing
`pybel.io.sbgnml.utils`) pulls the human-readable text out of a
glyph-like element and must not fail on a missing label — empty string
is valid. -/
def _get_label (g : XGlyph) : String :=
  match g.labels with
  | [] => ""
  | l :: _ => l.text.getD ""

/-- Modelled from the spec: `_iter_references` (from the missing
`pybel.io.sbgnml.utils`) yields the explicit embedded
(vocabulary, identifier) references of an element. -/
def _iter_references (g : XGlyph) : List (String × String) :=
  g.refs

/-! ### Complex decomposer (lines 216–249) -/

/-- One iteration of the loop over `label.split(':')`: the ordered
suffix rules, returning the (possibly stripped) component label and its
info record. -/
def classifyComponent (ctx : Ctx) (component_label : String) : String × Component :=
  if pyEndsWith component_label "-ubq" then
    let lbl := dropLast component_label ("-ubq".length)
    (lbl, ⟨⟨some "hgnc", ctx.hgnc_name_to_id lbl, some lbl⟩, some "ubq"⟩)
  else if pyEndsWith component_label "-P" then
    let lbl := dropLast component_label ("-P".length)
    (lbl, ⟨⟨some "hgnc", ctx.hgnc_name_to_id lbl, some lbl⟩, some "P"⟩)
  else if pyEndsWith component_label "*" then
    (component_label, ⟨⟨some "?", some "?", some component_label⟩, none⟩)
  else if component_label == "GTP" || component_label == "GDP" ||
      component_label == "ATP" || component_label == "ADP" then
    (component_label,
      ⟨⟨some "chebi", ctx.chebi_name_to_id component_label, some component_label⟩, none⟩)
  else
    (component_label, ⟨⟨some "hgnc", ctx.hgnc_name_to_id component_label, some component_label⟩, none⟩)

/-- Builds `component_label_to_info` from a complex glyph's label. -/
def decomposeLabel (ctx : Ctx) (label : String) : List (Option String × Component) :=
  (pySplit label ':').foldl
    (fun acc component_label =>
      let (lbl, info) := classifyComponent ctx component_label
      dset acc (some lbl) info)
    []

/-- Direct glyph children of the map with a given `class` attribute
(`sbgn_map.findall('glyph[@class=…]')`, document order). -/
def glyphsOfClass (m : XMap) (c : String) : List XGlyph :=
  m.glyphs.filter (fun g => g.cls == some c)

/-! ### Compartment table builder (lines 49–77)

`compartment.findall(label)[0]` raises `IndexError` when the compartment
has no label child. -/

/-- One iteration of the compartment loop: key and table entry, or the
`IndexError` from the label subscript. -/
def processCompartment (ctx : Ctx) (compartment : XGlyph) :
    Except PyErr (Option String × Compartment) := do
  let compartment_id := compartment.id
  let firstLabel ← match compartment.labels with
    | [] => Except.error PyErr.indexError
    | l :: _ => Except.ok l
  let compartment_label := firstLabel.text
  let (g_pfx, g_id, g_name) :=
    if pyTruthy compartment_label then
      match ctx.ground ["go", "mesh"] (compartment_label.getD "") with
      | some (p, i, n) => (some p, some i, some n)
      | none => (none, none, none)
    else (none, none, none)
  let parent_compartment_id := compartment.compartmentRef
  pure (compartment_id,
    { glyph_id := compartment_id,
      entity := ⟨g_pfx, g_id, pyOr g_name compartment_label⟩,
      parent := if pyTruthy parent_compartment_id then parent_compartment_id else none })

/-- Compartment table, keyed by compartment id. -/
def buildCompartments (ctx : Ctx) (m : XMap) :
    Except PyErr (List (Option String × Compartment)) :=
  (glyphsOfClass m "compartment").foldlM
    (fun acc compartment => do
      let (k, v) ← processCompartment ctx compartment
      pure (dset acc k v))
    []

/-! ### Port/process/gate indices (lines 79–101)

`process_to_references` is built by the code but never read afterwards,
so it is not modelled. Keys of `process_to_ports` / `and_to_ports` are
created only when a port is appended, so a process or gate with no
ports is absent from them. -/

/-- Index pass over `process` glyphs: `(port_to_process,
process_to_ports)`; a port id already registered is overwritten
(last writer wins). -/
def buildProcessIndex (m : XMap) :
    List (Option String × Option String) × List (Option String × List (Option String)) :=
  (glyphsOfClass m "process").foldl
    (fun acc process =>
      let process_id := process.id
      process.ports.foldl
        (fun acc port =>
          let port_id := port.id
          (dset acc.1 port_id process_id, dappend acc.2 process_id port_id))
        acc)
    ([], [])

/-- Index pass over `and` glyphs: `(ports_to_and, and_to_ports)`. -/
def buildAndIndex (m : XMap) :
    List (Option String × Option String) × List (Option String × List (Option String)) :=
  (glyphsOfClass m "and").foldl
    (fun acc and_glyph =>
      let and_id := and_glyph.id
      and_glyph.ports.foldl
        (fun acc port =>
          let port_id := port.id
          (dset acc.1 port_id and_id, dappend acc.2 and_id port_id))
        acc)
    ([], [])

/-! ### Reference resolution (lines 391–409) -/

/-- Resolution of a glyph's references: embedded references are returned
verbatim when present; otherwise the external grounding collaborator is
invoked, its match wrapped as a single-element list (the `if g_prefix:`
truthiness test kept), else the empty list. The `glyph_id`/`glyph_class`
parameters of the source are used only for log messages and are not
modelled. -/
def _get_references (ground : GroundFn) (glyph : XGlyph) (prefixes : List String)
    (glyph_label : String) : List (String × String) :=
  let references := _iter_references glyph
  if !references.isEmpty then references
  else
    match ground prefixes glyph_label with
    | some (g_pfx, g_id, _) => if g_pfx.isEmpty then [] else [(g_pfx, g_id)]
    | none => []

/-! ### Phenotype glyph pass (lines 107–125) -/

/-- One iteration of the phenotype loop. -/
def processPhenotype (ctx : Ctx) (phenotype_glyph : XGlyph) : Option String × GlyphEntry :=
  let phenotype_glyph_id := phenotype_glyph.id
  let phenotype_glyph_label := _get_label phenotype_glyph
  let references :=
    _get_references ctx.ground phenotype_glyph ["go", "efo"] phenotype_glyph_label
  (phenotype_glyph_id,
    GlyphEntry.phen phenotype_glyph_id
      ⟨references.head?.map (·.1), references.head?.map (·.2), some phenotype_glyph_label⟩)

/-- Phenotype entries of the glyph table. -/
def buildPhenotypes (ctx : Ctx) (m : XMap) (glyphs0 : List (Option String × GlyphEntry)) :
    List (Option String × GlyphEntry) :=
  (glyphsOfClass m "phenotype").foldl
    (fun acc phenotype_glyph =>
      let (k, v) := processPhenotype ctx phenotype_glyph
      dset acc k v)
    glyphs0

/-! ### Normal glyph pass (lines 128–209) -/

/-- Iteration order of the normal pass:
`itertools.chain(sbgn_map.findall('glyph'),
sbgn_map.findall('glyph[@class="complex"]/glyph'))`. -/
def normalPassInput (m : XMap) : List XGlyph :=
  m.glyphs ++ ((glyphsOfClass m "complex").map XGlyph.children).flatten

/-- Modification-state values collected by the normal pass (lines
153–157): `state` children of `state variable` child glyphs whose
`value` attribute is truthy. -/
def glyphStates (glyph : XGlyph) : List String :=
  ((glyph.children.filter (fun c => c.cls == some "state variable")).map
    XGlyph.states).flatten.filterMap
    (fun st => if pyTruthy st.value then st.value else none)

/-- Reference resolution of a normal glyph (lines 175–181): embedded
references or grounding against ChEBI then HGNC. -/
def glyphReferences (ctx : Ctx) (glyph : XGlyph) : List (String × String) :=
  _get_references ctx.ground glyph ["chebi", "hgnc"] (_get_label glyph)

/-- One iteration of the normal glyph loop: `none` when the glyph is
skipped (missing class/id, already-handled or unhandled class), an
entry otherwise; raises `KeyError` on a truthy `compartmentRef` absent
from the compartment table. The `info` list (lines 159–163) is only
logged and is not modelled. -/
def processNormalGlyph (ctx : Ctx) (compartments : List (Option String × Compartment))
    (glyph : XGlyph) : Except PyErr (Option (Option String × GlyphEntry)) := do
  match glyph.cls with
  | none => pure none
  | some glyph_class =>
    if glyph_class == "compartment" || glyph_class == "process" || glyph_class == "and" ||
        glyph_class == "phenotype" || glyph_class == "complex" then
      pure none
    else if !(glyph_class == "macromolecule" || glyph_class == "simple chemical" ||
        glyph_class == "nucleic acid feature") then
      pure none
    else match glyph.id with
    | none => pure none
    | some _ =>
      let glyph_compartment_id := glyph.compartmentRef
      let glyph_compartment ←
        if pyTruthy glyph_compartment_id then
          match dget compartments glyph_compartment_id with
          | some c => pure (some c)
          | none => Except.error (PyErr.keyError glyph_compartment_id)
        else pure none
      let label := _get_label glyph
      let states := glyphStates glyph
      let references := glyphReferences ctx glyph
      let glyph_class :=
        if references.length > 1 && glyph_class == "macromolecule" then "complex"
        else glyph_class
      pure (some (glyph.id,
        GlyphEntry.norm glyph.id glyph_class
          ⟨references.head?.map (·.1), references.head?.map (·.2), some label⟩
          states glyph_compartment))

/-- Normal-pass entries of the glyph table. -/
def buildNormalGlyphs (ctx : Ctx) (compartments : List (Option String × Compartment))
    (m : XMap) (glyphs0 : List (Option String × GlyphEntry)) :
    Except PyErr (List (Option String × GlyphEntry)) :=
  (normalPassInput m).foldlM
    (fun acc glyph => do
      match ← processNormalGlyph ctx compartments glyph with
      | none => pure acc
      | some (k, v) => pure (dset acc k v))
    glyphs0

/-! ### Complex pass (lines 212–256) -/

/-- One iteration of the complex loop. -/
def processComplexGlyph (ctx : Ctx) (complex_glyph : XGlyph) : Option String × GlyphEntry :=
  let complex_id := complex_glyph.id
  let label := _get_label complex_glyph
  (complex_id, GlyphEntry.cplx complex_id label (decomposeLabel ctx label))

/-- Complex entries of the glyph table. -/
def buildComplexes (ctx : Ctx) (m : XMap) (glyphs0 : List (Option String × GlyphEntry)) :
    List (Option String × GlyphEntry) :=
  (glyphsOfClass m "complex").foldl
    (fun acc complex_glyph =>
      let (k, v) := processComplexGlyph ctx complex_glyph
      dset acc k v)
    glyphs0

/-! ### Arc resolution (lines 259–324) -/

/-- Resolved arc endpoint: a glyph-table value (a dict in Python), a
plain string id, or Python `None` (a port owned by a process or gate
whose own `id` attribute was missing). -/
inductive Endpoint where
  | glyph (g : GlyphEntry)
  | ref (s : String)
  | nothing
  deriving DecidableEq, Repr

/-- View of an optional owner id as an endpoint. -/
def Endpoint.ofOpt : Option String → Endpoint
  | some s => .ref s
  | none => .nothing

/-- Lookup tables consumed by arc resolution. -/
structure Tables where
  glyphs : List (Option String × GlyphEntry)
  port_to_process : List (Option String × Option String)
  process_to_ports : List (Option String × List (Option String))
  ports_to_and : List (Option String × Option String)
  and_to_ports : List (Option String × List (Option String))
  deriving DecidableEq, Repr

/-- Endpoint resolution cascade (lines 278–293 and 300–315): glyph-table
membership, then membership as a process/gate id itself, then the
port→process index, then the port→gate index; `none` when unresolvable. -/
def resolveEndpoint (t : Tables) (eid : String) : Option Endpoint :=
  if dmem t.glyphs (some eid) then
    (dget t.glyphs (some eid)).map Endpoint.glyph
  else if dmem t.process_to_ports (some eid) || dmem t.and_to_ports (some eid) then
    some (.ref eid)
  else if dmem t.port_to_process (some eid) then
    (dget t.port_to_process (some eid)).map Endpoint.ofOpt
  else if dmem t.ports_to_and (some eid) then
    (dget t.ports_to_and (some eid)).map Endpoint.ofOpt
  else none

/-- Value of the `arcs` dictionary. -/
structure RArc where
  cls : String
  source : Endpoint
  target : Endpoint
  deriving DecidableEq, Repr

/-- State of the arc loop: the `arcs` dictionary and the
successful/failure tallies. -/
structure ArcState where
  arcs : List (Option String × RArc)
  successful : Nat
  failures : Nat
  deriving DecidableEq, Repr

/-- One iteration of the arc loop: each missing attribute or
unresolvable endpoint increments `failures` and skips the arc; a fully
resolved arc increments `successful` and is stored by id. -/
def processArcStep (t : Tables) (st : ArcState) (arc : XArc) : ArcState :=
  match arc.cls with
  | none => { st with failures := st.failures + 1 }
  | some arc_class =>
  match arc.id with
  | none => { st with failures := st.failures + 1 }
  | some arc_id =>
  match arc.source with
  | none => { st with failures := st.failures + 1 }
  | some arc_source_id =>
  match resolveEndpoint t arc_source_id with
  | none => { st with failures := st.failures + 1 }
  | some arc_source =>
  match arc.target with
  | none => { st with failures := st.failures + 1 }
  | some arc_target_id =>
  match resolveEndpoint t arc_target_id with
  | none => { st with failures := st.failures + 1 }
  | some arc_target =>
    { arcs := dset st.arcs (some arc_id) ⟨arc_class, arc_source, arc_target⟩,
      successful := st.successful + 1,
      failures := st.failures }

/-- Arc loop over the map. -/
def buildArcs (t : Tables) (m : XMap) : ArcState :=
  m.arcs.foldl (processArcStep t) ⟨[], 0, 0⟩

/-! ### Reification (lines 326–374) -/

/-- Entry appended under a reified group's `targets`/`sources`. -/
structure ReiEntry where
  arc_id : Option String
  arc_class : String
  glyph : GlyphEntry
  deriving DecidableEq, Repr

/-- Reified group dictionary: `process` is set on every touch;
`targets`/`sources` are created lazily as `defaultdict(list)` keyed by
arc class. -/
structure ReifiedGroup where
  process : String
  targets : Option (List (String × List ReiEntry))
  sources : Option (List (String × List ReiEntry))
  deriving DecidableEq, Repr

/-- Pass-through record for an arc between two plain glyphs. -/
structure DirectArc where
  arc_id : Option String
  arc_class : String
  source : GlyphEntry
  target : GlyphEntry
  deriving DecidableEq, Repr

/-- Touch `reified_arcs[k]` (a `defaultdict(dict)`): create the empty
group on first touch, then apply the mutation. -/
def updateGroup (d : List (String × ReifiedGroup)) (k : String)
    (f : ReifiedGroup → ReifiedGroup) : List (String × ReifiedGroup) :=
  if dmem d k then d.map (fun p => if p.1 == k then (p.1, f p.2) else p)
  else d ++ [(k, f ⟨k, none, none⟩)]

/-- One iteration of the classification loop over `arcs.items()`; the
`(str, str)` and `None`-endpoint combinations are warned about and
dropped. -/
def reifyStep (st : List (String × ReifiedGroup) × List DirectArc)
    (p : Option String × RArc) : List (String × ReifiedGroup) × List DirectArc :=
  let arc_id := p.1
  let arc := p.2
  match arc.source, arc.target with
  | .ref s, .glyph g =>
    (updateGroup st.1 s
      (fun grp =>
        { grp with
          process := s,
          targets := some (dappend (grp.targets.getD []) arc.cls ⟨arc_id, arc.cls, g⟩) }),
      st.2)
  | .glyph g, .ref t =>
    (updateGroup st.1 t
      (fun grp =>
        { grp with
          process := t,
          sources := some (dappend (grp.sources.getD []) arc.cls ⟨arc_id, arc.cls, g⟩) }),
      st.2)
  | .ref _, .ref _ => st
  | .glyph g1, .glyph g2 =>
    (st.1, st.2 ++ [⟨arc_id, arc.cls, g1, g2⟩])
  | _, _ => st

/-- Classification loop over the resolved arcs, in insertion order. -/
def buildReified (arcs : List (Option String × RArc)) :
    List (String × ReifiedGroup) × List DirectArc :=
  arcs.foldl reifyStep ([], [])

/-! ### Title and document result (lines 376–388) -/

/-- Title extraction: no `notes/html/body` match yields no title
(`IndexError` is caught); a body whose `text` is `None` raises
`AttributeError` from `body.text.strip()`. -/
def computeTitle (m : XMap) : Except PyErr (Option String) :=
  match m.bodies with
  | [] => Except.ok none
  | body :: _ =>
    match body.text with
    | none => Except.error PyErr.attributeError
    | some t => Except.ok (some t.trim)

/-- Document result returned by `handle_sbgn_map`. -/
structure DocResult where
  title : Option String
  reified : List ReifiedGroup
  direct : List DirectArc
  deriving DecidableEq, Repr

/-- Glyph table: phenotype pass, then normal pass, then complex pass
(lines 104–256). -/
def buildGlyphs (ctx : Ctx) (compartments : List (Option String × Compartment))
    (m : XMap) : Except PyErr (List (Option String × GlyphEntry)) := do
  let glyphs := buildPhenotypes ctx m []
  let glyphs ← buildNormalGlyphs ctx compartments m glyphs
  pure (buildComplexes ctx m glyphs)

/-- Handles one `map` element (lines 47–388). -/
def handle_sbgn_map (ctx : Ctx) (sbgn_map : XMap) : Except PyErr DocResult := do
  let compartments ← buildCompartments ctx sbgn_map
  let (port_to_process, process_to_ports) := buildProcessIndex sbgn_map
  let (ports_to_and, and_to_ports) := buildAndIndex sbgn_map
  let glyphs ← buildGlyphs ctx compartments sbgn_map
  let t : Tables := ⟨glyphs, port_to_process, process_to_ports, ports_to_and, and_to_ports⟩
  let st := buildArcs t sbgn_map
  let (reified_arcs, direct_arcs) := buildReified st.arcs
  let title ← computeTitle sbgn_map
  pure ⟨title, reified_arcs.map (·.2), direct_arcs⟩

/-- Parses an element tree (lines 37–44): more than one `map` raises
`ValueError`; `maps[0]` raises `IndexError` on an empty list. -/
def parse_sbgn_tree (ctx : Ctx) (tree : XTree) : Except PyErr DocResult :=
  if 1 < tree.maps.length then
    Except.error (PyErr.valueError "not supporting multiple maps in one XML now")
  else
    match tree.maps with
    | [] => Except.error PyErr.indexError
    | sbgn_map :: _ => handle_sbgn_map ctx sbgn_map

/-! ### Derived notions used in theorem statements -/

/-- Glyphs that pass the class and id filters of the normal pass and
therefore reach the compartment lookup. -/
def retainedGlyph (g : XGlyph) : Bool :=
  (g.cls == some "macromolecule" || g.cls == some "simple chemical" ||
    g.cls == some "nucleic acid feature") && g.id.isSome

/-- Entity references of a glyph-table entry, complex constituents
included. -/
def GlyphEntry.entities : GlyphEntry → List Entity
  | .phen _ e => [e]
  | .norm _ _ e _ _ => [e]
  | .cplx _ _ comps => comps.map (·.2.entity)

/-- Every entity reference of the compartment table and the glyph
table (complex constituents included). -/
def allEntities (compartments : List (Option String × Compartment))
    (glyphs : List (Option String × GlyphEntry)) : List Entity :=
  compartments.map (·.2.entity) ++ (glyphs.map (fun p => p.2.entities)).flatten

/-- Entity references of the tables excluding complex constituents:
compartment entities plus the `entity` field of phenotype and normal
glyph entries. -/
def nonComplexEntities (compartments : List (Option String × Compartment))
    (glyphs : List (Option String × GlyphEntry)) : List Entity :=
  compartments.map (·.2.entity) ++ glyphs.filterMap (fun p => p.2.entity)

/-- Claimed invariant on an entity reference: a present vocabulary
prefix forces a present identifier. -/
def entityInvariant (e : Entity) : Prop :=
  e.pfx.isSome → e.identifier.isSome

/-- Invariant on a glyph-table entry: its `entity` field (when present)
satisfies the prefix/identifier invariant. -/
def entryInvariant (ge : GlyphEntry) : Prop :=
  ∀ e, ge.entity = some e → entityInvariant e

/-- Compartment snapshot stored on a normal glyph when its reference
(if truthy) resolves. -/
def glyphCompartment (compartments : List (Option String × Compartment))
    (glyph : XGlyph) : Option Compartment :=
  if pyTruthy glyph.compartmentRef then dget compartments glyph.compartmentRef else none

/-! ### Concrete instances for witnesses and counterexamples -/

/-- Context whose collaborator and static tables find nothing. -/
def trivialCtx : Ctx := ⟨fun _ _ => none, fun _ => none, fun _ => none⟩

/-- Map with no content at all. -/
def emptyMap : XMap := ⟨[], [], []⟩

/-- Map whose only glyph is a compartment without a label child. -/
def noLabelCompartmentMap : XMap :=
  ⟨[XGlyph.mk (some "c1") (some "compartment") none [] [] [] [] []], [], []⟩

/-- Map whose only glyph is a complex labelled `FOO`. -/
def fooComplexMap : XMap :=
  ⟨[XGlyph.mk (some "x1") (some "complex") none [XLabel.mk (some "FOO")] [] [] [] []], [], []⟩

/-- Macromolecule glyph with a label and one embedded reference. -/
def refGlyph : XGlyph :=
  XGlyph.mk (some "g1") (some "macromolecule") none [XLabel.mk (some "X")] [] [("hgnc", "1234")] [] []

/-- Map whose only glyph is `refGlyph`. -/
def refGlyphMap : XMap := ⟨[refGlyph], [], []⟩

/-- Macromolecule glyph with two embedded references. -/
def twoRefGlyph : XGlyph :=
  XGlyph.mk (some "g2") (some "macromolecule") none [XLabel.mk (some "Y")] []
    [("hgnc", "1"), ("hgnc", "2")] [] []

/-- Simple-chemical glyph with two embedded references. -/
def twoRefChemGlyph : XGlyph :=
  XGlyph.mk (some "g3") (some "simple chemical") none [XLabel.mk (some "Z")] []
    [("chebi", "10"), ("chebi", "20")] [] []

/-- Glyph-table entry used as a concrete resolution target. -/
def exEntry : GlyphEntry :=
  GlyphEntry.norm (some "g9") "macromolecule" ⟨some "hgnc", some "9", some "G9"⟩ [] none

/-- Concrete lookup tables: glyph `g9`, process `P1` owning port `p1`. -/
def exTables : Tables :=
  ⟨[(some "g9", exEntry)], [(some "p1", some "P1")], [(some "P1", [some "p1"])], [], []⟩

/-- Concrete lookup tables: logic gate `A1` owning port `q1`. -/
def gateTables : Tables :=
  ⟨[], [], [], [(some "q1", some "A1")], [(some "A1", [some "q1"])]⟩

/-! ### Dictionary lemmas -/

theorem dmem_iff {α β : Type} [BEq α] [LawfulBEq α] (d : List (α × β)) (k : α) :
    dmem d k = true ↔ k ∈ d.map (·.1) := by
  unfold dmem
  rw [List.any_eq_true]
  constructor
  · rintro ⟨p, hp, he⟩
    exact List.mem_map.mpr ⟨p, hp, eq_of_beq he⟩
  · intro hk
    obtain ⟨p, hp, he⟩ := List.mem_map.mp hk
    exact ⟨p, hp, beq_iff_eq.mpr he⟩

theorem keys_dset {α β : Type} [BEq α] [LawfulBEq α] (d : List (α × β)) (k : α) (v : β) :
    (dset d k v).map (·.1) = if dmem d k then d.map (·.1) else d.map (·.1) ++ [k] := by
  unfold dset
  cases h : dmem d k
  · simp
  · simp only [if_true, List.map_map]
    apply List.map_congr_left
    intro p _
    by_cases hp : p.1 == k
    · simp only [Function.comp_apply, hp, if_pos]
      exact (eq_of_beq hp).symm
    · simp [Function.comp_apply, hp]

theorem mem_dset {α β : Type} [BEq α] [LawfulBEq α] {d : List (α × β)} {k : α} {v : β}
    {q : α × β} (hq : q ∈ dset d k v) : q = (k, v) ∨ q ∈ d := by
  unfold dset at hq
  cases h : dmem d k <;> rw [h] at hq
  · simp only [Bool.false_eq_true, if_false, List.mem_append, List.mem_singleton] at hq
    tauto
  · simp only [if_true, List.mem_map] at hq
    obtain ⟨p, hp, he⟩ := hq
    by_cases hpk : p.1 == k
    · left
      rw [if_pos hpk] at he
      exact he.symm
    · right
      rw [if_neg hpk] at he
      rwa [← he]

theorem dmem_of_dget {α β : Type} [BEq α] {d : List (α × β)} {k : α} {v : β}
    (h : dget d k = some v) : dmem d k = true := by
  unfold dget at h
  rcases hf : d.find? (fun p => p.1 == k) with _ | q
  · rw [hf] at h
    simp at h
  · have h1 := List.find?_some hf
    have h2 := List.mem_of_find?_eq_some hf
    exact List.any_eq_true.mpr ⟨q, h2, h1⟩

theorem dget_isSome_iff {α β : Type} [BEq α] (d : List (α × β)) (k : α) :
    (dget d k).isSome = dmem d k := by
  unfold dget dmem
  rw [Option.isSome_map']
  cases ha : d.any (fun p => p.1 == k)
  · cases hf : d.find? (fun p => p.1 == k)
    · rfl
    · exfalso
      have hx := List.any_eq_true.mpr
        ⟨_, List.mem_of_find?_eq_some hf, List.find?_some hf⟩
      rw [ha] at hx
      cases hx
  · obtain ⟨p, hp, he⟩ := List.any_eq_true.mp ha
    exact List.find?_isSome.mpr ⟨p, hp, he⟩

theorem except_bind_ok {ε α β : Type} (a : α) (f : α → Except ε β) :
    (Except.ok a >>= f : Except ε β) = f a := rfl

theorem except_bind_error {ε α β : Type} (e : ε) (f : α → Except ε β) :
    ((Except.error e : Except ε α) >>= f) = Except.error e := rfl

theorem except_pure {ε α : Type} (a : α) : (pure a : Except ε α) = Except.ok a := rfl

theorem exists_ok_bind {ε α β : Type} {x : Except ε α} {f : α → Except ε β} {a : α}
    (hx : x = Except.ok a) (h : ∃ r, f a = Except.ok r) :
    ∃ r, (x >>= f) = Except.ok r := by
  rw [hx, except_bind_ok]
  exact h

/-! ### Suffix-marker lemmas (complex decomposer) -/

theorem not_suffix_of_star {l : List Char} {c : Char} (pre : List Char) (hc : c ≠ '*')
    (h : ['*'] <:+ l) : ¬ (pre ++ [c]) <:+ l := by
  intro h2
  obtain ⟨t1, ht1⟩ := h
  obtain ⟨t2, ht2⟩ := h2
  have e1 : l.getLast? = some '*' := by rw [← ht1]; simp
  have e2 : l.getLast? = some c := by
    rw [← ht2, ← List.append_assoc]; simp
  rw [e1] at e2
  exact hc (Option.some.inj e2).symm

theorem pyEndsWith_star {s : String} (h : pyEndsWith s "*" = true) :
    pyEndsWith s "-ubq" = false ∧ pyEndsWith s "-P" = false := by
  unfold pyEndsWith at *
  have hs : "*".data = ['*'] := by decide
  have hu : "-ubq".data = ['-', 'u', 'b'] ++ ['q'] := by decide
  have hp : "-P".data = ['-'] ++ ['P'] := by decide
  rw [hs, List.isSuffixOf_iff_suffix] at h
  constructor
  · rw [hu, ← Bool.not_eq_true, List.isSuffixOf_iff_suffix]
    exact not_suffix_of_star ['-', 'u', 'b'] (by decide) h
  · rw [hp, ← Bool.not_eq_true, List.isSuffixOf_iff_suffix]
    exact not_suffix_of_star ['-'] (by decide) h

/-! ### Claims -/

/-- C2: for every input document containing more than one map element,
parsing raises a fatal `ValueError` to the caller and returns no
partial result. -/
theorem claim_C2 (ctx : Ctx) (tree : XTree) (h : 1 < tree.maps.length) :
    parse_sbgn_tree ctx tree =
      Except.error (PyErr.valueError "not supporting multiple maps in one XML now") := by
  unfold parse_sbgn_tree
  rw [if_pos h]

/-- C2 witness: a tree with two maps. -/
theorem claim_C2_witness :
    parse_sbgn_tree trivialCtx ⟨[emptyMap, emptyMap]⟩ =
      Except.error (PyErr.valueError "not supporting multiple maps in one XML now") :=
  claim_C2 trivialCtx ⟨[emptyMap, emptyMap]⟩ (by decide)

/-- C10: for every input document containing zero map elements, the
parse raises the `IndexError` of `maps[0]` and returns no result. -/
theorem claim_C10 (ctx : Ctx) (tree : XTree) (h : tree.maps = []) :
    parse_sbgn_tree ctx tree = Except.error PyErr.indexError := by
  unfold parse_sbgn_tree
  rw [h]
  rfl

/-- C10 witness: a tree with no maps. -/
theorem claim_C10_witness :
    parse_sbgn_tree trivialCtx ⟨[]⟩ = Except.error PyErr.indexError :=
  claim_C10 trivialCtx ⟨[]⟩ rfl

/-- C3: decomposing the label `A-P:B-ubq:GTP` yields exactly three
constituents — `A` grounded against HGNC with the phosphorylation tag
`P`, `B` grounded against HGNC with the ubiquitination tag `ubq`, and
`GTP` grounded against ChEBI with no tag. -/
theorem claim_C3 (ctx : Ctx) :
    decomposeLabel ctx "A-P:B-ubq:GTP" =
      [(some "A", ⟨⟨some "hgnc", ctx.hgnc_name_to_id "A", some "A"⟩, some "P"⟩),
       (some "B", ⟨⟨some "hgnc", ctx.hgnc_name_to_id "B", some "B"⟩, some "ubq"⟩),
       (some "GTP", ⟨⟨some "chebi", ctx.chebi_name_to_id "GTP", some "GTP"⟩, none⟩)] := by
  rfl

/-- C4: every constituent sub-label with a trailing `*` is left
ungrounded with the explicit `?` sentinel as both prefix and identifier
(present, not `None`) and no modification tag. -/
theorem claim_C4 (ctx : Ctx) (s : String) (h : pyEndsWith s "*" = true) :
    classifyComponent ctx s = (s, ⟨⟨some "?", some "?", some s⟩, none⟩) := by
  obtain ⟨h1, h2⟩ := pyEndsWith_star h
  unfold classifyComponent
  rw [h1, h2, h]
  rfl

/-- C4 witness: the sub-label `RAS*`. -/
theorem claim_C4_witness :
    classifyComponent trivialCtx "RAS*" = ("RAS*", ⟨⟨some "?", some "?", some "RAS*"⟩, none⟩) :=
  claim_C4 trivialCtx "RAS*" (by decide)

/-- C9: a glyph carrying explicit embedded vocabulary references gets
them back verbatim from reference resolution, whatever the external
grounding collaborator is — so the collaborator is never consulted for
that glyph. -/
theorem claim_C9 (ground : GroundFn) (glyph : XGlyph) (prefixes : List String)
    (glyph_label : String) (h : _iter_references glyph ≠ []) :
    _get_references ground glyph prefixes glyph_label = _iter_references glyph := by
  unfold _get_references
  simp [List.isEmpty_iff, h]

/-- C9 witness: a glyph with one embedded reference, resolved under the
trivial collaborator. -/
theorem claim_C9_witness :
    _get_references trivialCtx.ground refGlyph ["chebi", "hgnc"] "X" =
      _iter_references refGlyph :=
  claim_C9 trivialCtx.ground refGlyph ["chebi", "hgnc"] "X" (by decide)

/-- C8: an arc whose source id is a port owned by process `P` (a port
id outside every other table) and whose target resolves to glyph `G`
produces exactly one reified group, keyed by `P`, holding `G` under
`targets[arc class]` and nothing else; an arc whose two endpoints
resolve to plain glyphs `G1`, `G2` produces exactly one direct-arcs
entry `{source = G1, target = G2}` and no reified group. -/
theorem claim_C8 (t : Tables) (aid c sid tid P : String) (G G1 G2 : GlyphEntry) :
    (dmem t.glyphs (some sid) = false →
     dmem t.process_to_ports (some sid) = false →
     dmem t.and_to_ports (some sid) = false →
     dget t.port_to_process (some sid) = some (some P) →
     dget t.glyphs (some tid) = some G →
     buildReified (buildArcs t ⟨[], [⟨some aid, some c, some sid, some tid⟩], []⟩).arcs =
       ([(P, ⟨P, some [(c, [⟨some aid, c, G⟩])], none⟩)], [])) ∧
    (dget t.glyphs (some sid) = some G1 →
     dget t.glyphs (some tid) = some G2 →
     buildReified (buildArcs t ⟨[], [⟨some aid, some c, some sid, some tid⟩], []⟩).arcs =
       ([], [⟨some aid, c, G1, G2⟩])) := by
  constructor
  · intro hs1 hs2 hs3 hs4 ht
    have hs4m := dmem_of_dget hs4
    have htm := dmem_of_dget ht
    have hres : resolveEndpoint t sid = some (Endpoint.ref P) := by
      unfold resolveEndpoint
      rw [hs1, hs2, hs3, hs4m, hs4]
      simp [Endpoint.ofOpt]
    have hrest : resolveEndpoint t tid = some (Endpoint.glyph G) := by
      unfold resolveEndpoint
      rw [htm, ht]
      simp
    simp [buildArcs, processArcStep, hres, hrest,
      buildReified, reifyStep, updateGroup, dappend, dmem, dset]
  · intro hg1 hg2
    have h1m := dmem_of_dget hg1
    have h2m := dmem_of_dget hg2
    have hres : resolveEndpoint t sid = some (Endpoint.glyph G1) := by
      unfold resolveEndpoint
      rw [h1m, hg1]
      simp
    have hrest : resolveEndpoint t tid = some (Endpoint.glyph G2) := by
      unfold resolveEndpoint
      rw [h2m, hg2]
      simp
    simp [buildArcs, processArcStep, hres, hrest,
      buildReified, reifyStep, updateGroup, dappend, dmem, dset]

/-- Helper for C7: any arc with a missing class, id, source or target
attribute is skipped with exactly one failure increment. -/
theorem processArcStep_missing (t : Tables) (st : ArcState) (arc : XArc)
    (h : arc.cls = none ∨ arc.id = none ∨ arc.source = none ∨ arc.target = none) :
    processArcStep t st arc = { st with failures := st.failures + 1 } := by
  unfold processArcStep
  cases arc with
  | mk ai ac asrc atgt =>
    rcases h with h | h | h | h
    · have h' : ac = none := h
      subst h'
      rfl
    · have h' : ai = none := h
      subst h'
      cases ac with
      | none => rfl
      | some c => rfl
    · have h' : asrc = none := h
      subst h'
      cases ac with
      | none => rfl
      | some c =>
        cases ai with
        | none => rfl
        | some i => rfl
    · have h' : atgt = none := h
      subst h'
      cases ac with
      | none => rfl
      | some c =>
        cases ai with
        | none => rfl
        | some i =>
          cases asrc with
          | none => rfl
          | some s =>
            rcases hres : resolveEndpoint t s with _ | es <;> simp [hres]

/-- C7: an arc missing any of id, class, source or target is skipped
with a failure-counter increment; endpoint ids are resolved through, in
order, (a) glyph-table membership, (b) membership as a process or gate
id, (c) the port→process index, (d) the port→gate index; an id matching
none of these resolves to nothing, and an arc with an unresolvable
source or target is likewise skipped with a failure increment. -/
theorem claim_C7 (t : Tables) (st : ArcState) (arc : XArc) (eid : String) :
    ((arc.cls = none ∨ arc.id = none ∨ arc.source = none ∨ arc.target = none) →
      processArcStep t st arc = { st with failures := st.failures + 1 }) ∧
    (dmem t.glyphs (some eid) = true →
      resolveEndpoint t eid = (dget t.glyphs (some eid)).map Endpoint.glyph) ∧
    (dmem t.glyphs (some eid) = false →
      (dmem t.process_to_ports (some eid) || dmem t.and_to_ports (some eid)) = true →
      resolveEndpoint t eid = some (Endpoint.ref eid)) ∧
    (dmem t.glyphs (some eid) = false → dmem t.process_to_ports (some eid) = false →
      dmem t.and_to_ports (some eid) = false → dmem t.port_to_process (some eid) = true →
      resolveEndpoint t eid = (dget t.port_to_process (some eid)).map Endpoint.ofOpt) ∧
    (dmem t.glyphs (some eid) = false → dmem t.process_to_ports (some eid) = false →
      dmem t.and_to_ports (some eid) = false → dmem t.port_to_process (some eid) = false →
      dmem t.ports_to_and (some eid) = true →
      resolveEndpoint t eid = (dget t.ports_to_and (some eid)).map Endpoint.ofOpt) ∧
    (dmem t.glyphs (some eid) = false → dmem t.process_to_ports (some eid) = false →
      dmem t.and_to_ports (some eid) = false → dmem t.port_to_process (some eid) = false →
      dmem t.ports_to_and (some eid) = false → resolveEndpoint t eid = none) ∧
    (∀ c i s, arc.cls = some c → arc.id = some i → arc.source = some s →
      resolveEndpoint t s = none →
      processArcStep t st arc = { st with failures := st.failures + 1 }) ∧
    (∀ c i s tg es, arc.cls = some c → arc.id = some i → arc.source = some s →
      resolveEndpoint t s = some es → arc.target = some tg → resolveEndpoint t tg = none →
      processArcStep t st arc = { st with failures := st.failures + 1 }) := by
  refine ⟨processArcStep_missing t st arc, ?_, ?_, ?_, ?_, ?_, ?_, ?_⟩
  · intro h1
    unfold resolveEndpoint
    rw [h1]
    simp
  · intro h1 h2
    unfold resolveEndpoint
    rw [h1, h2]
    simp
  · intro h1 h2 h3 h4
    unfold resolveEndpoint
    rw [h1, h2, h3, h4]
    simp
  · intro h1 h2 h3 h4 h5
    unfold resolveEndpoint
    rw [h1, h2, h3, h4, h5]
    simp
  · intro h1 h2 h3 h4 h5
    unfold resolveEndpoint
    rw [h1, h2, h3, h4, h5]
    simp
  · intro c i s hc hi hs hres
    cases arc with
    | mk ai ac asrc atgt =>
      have hc' : ac = some c := hc
      have hi' : ai = some i := hi
      have hs' : asrc = some s := hs
      subst hc'
      subst hi'
      subst hs'
      unfold processArcStep
      simp [hres]
  · intro c i s tg es hc hi hs hres htg hrest
    cases arc with
    | mk ai ac asrc atgt =>
      have hc' : ac = some c := hc
      have hi' : ai = some i := hi
      have hs' : asrc = some s := hs
      have ht' : atgt = some tg := htg
      subst hc'
      subst hi'
      subst hs'
      subst ht'
      unfold processArcStep
      simp [hres, hrest]

/-- C7 witness: each validation and resolution case exercised on the
concrete tables. -/
theorem claim_C7_witness :
    (processArcStep exTables ⟨[], 0, 0⟩ ⟨some "a0", none, some "x", some "y"⟩ =
      ⟨[], 0, 1⟩) ∧
    (resolveEndpoint exTables "g9" = some (Endpoint.glyph exEntry)) ∧
    (resolveEndpoint exTables "P1" = some (Endpoint.ref "P1")) ∧
    (resolveEndpoint exTables "p1" = some (Endpoint.ref "P1")) ∧
    (resolveEndpoint gateTables "q1" = some (Endpoint.ref "A1")) ∧
    (resolveEndpoint exTables "zz" = none) ∧
    (processArcStep exTables ⟨[], 0, 0⟩ ⟨some "a0", some "c0", some "zz", some "g9"⟩ =
      ⟨[], 0, 1⟩) ∧
    (processArcStep exTables ⟨[], 0, 0⟩ ⟨some "a0", some "c0", some "g9", some "zz"⟩ =
      ⟨[], 0, 1⟩) := by
  refine ⟨?_, ?_, ?_, ?_, ?_, ?_, ?_, ?_⟩
  · exact (claim_C7 exTables ⟨[], 0, 0⟩ ⟨some "a0", none, some "x", some "y"⟩ "e").1
      (Or.inl rfl)
  · have h := (claim_C7 exTables ⟨[], 0, 0⟩ ⟨none, none, none, none⟩ "g9").2.1 (by decide)
    rw [h]
    rfl
  · exact (claim_C7 exTables ⟨[], 0, 0⟩ ⟨none, none, none, none⟩ "P1").2.2.1
      (by decide) (by decide)
  · have h := (claim_C7 exTables ⟨[], 0, 0⟩ ⟨none, none, none, none⟩ "p1").2.2.2.1
      (by decide) (by decide) (by decide) (by decide)
    rw [h]
    rfl
  · have h := (claim_C7 gateTables ⟨[], 0, 0⟩ ⟨none, none, none, none⟩ "q1").2.2.2.2.1
      (by decide) (by decide) (by decide) (by decide) (by decide)
    rw [h]
    rfl
  · exact (claim_C7 exTables ⟨[], 0, 0⟩ ⟨none, none, none, none⟩ "zz").2.2.2.2.2.1
      (by decide) (by decide) (by decide) (by decide) (by decide)
  · exact (claim_C7 exTables ⟨[], 0, 0⟩ ⟨some "a0", some "c0", some "zz", some "g9"⟩
      "e").2.2.2.2.2.2.1 "c0" "a0" "zz" rfl rfl rfl (by decide)
  · exact (claim_C7 exTables ⟨[], 0, 0⟩ ⟨some "a0", some "c0", some "g9", some "zz"⟩
      "e").2.2.2.2.2.2.2 "c0" "a0" "g9" "zz" (Endpoint.glyph exEntry) rfl rfl rfl
      (by decide) rfl (by decide)

/-- C6: a multi-reference macromolecule glyph is kept and reclassified
to class `complex` in the emitted glyph table, while a multi-reference
glyph of another retained class keeps its declared class and only the
first reference. -/
theorem claim_C6 (ctx : Ctx) (compartments : List (Option String × Compartment))
    (glyph : XGlyph) (gid : String)
    (hgid : glyph.id = some gid)
    (hcr : pyTruthy glyph.compartmentRef = false ∨
      (dget compartments glyph.compartmentRef).isSome = true)
    (hlen : 1 < (glyphReferences ctx glyph).length) :
    (glyph.cls = some "macromolecule" →
      processNormalGlyph ctx compartments glyph = Except.ok (some (glyph.id,
        GlyphEntry.norm glyph.id "complex"
          ⟨(glyphReferences ctx glyph).head?.map (·.1),
           (glyphReferences ctx glyph).head?.map (·.2), some (_get_label glyph)⟩
          (glyphStates glyph) (glyphCompartment compartments glyph)))) ∧
    (∀ c0, glyph.cls = some c0 → c0 = "simple chemical" ∨ c0 = "nucleic acid feature" →
      processNormalGlyph ctx compartments glyph = Except.ok (some (glyph.id,
        GlyphEntry.norm glyph.id c0
          ⟨(glyphReferences ctx glyph).head?.map (·.1),
           (glyphReferences ctx glyph).head?.map (·.2), some (_get_label glyph)⟩
          (glyphStates glyph) (glyphCompartment compartments glyph)))) := by
  constructor
  · intro hcls
    unfold processNormalGlyph
    rw [hcls, hgid]
    rcases hcr with h | h
    · simp [h, glyphCompartment, hlen, Except.bind, pure, Except.pure]
      rfl
    · by_cases hpt : pyTruthy glyph.compartmentRef = true
      · obtain ⟨cc, hcc⟩ := Option.isSome_iff_exists.mp h
        simp [hpt, hcc, glyphCompartment, hlen, Except.bind, pure, Except.pure]
        rfl
      · have hpt' : pyTruthy glyph.compartmentRef = false := by
          cases hb : pyTruthy glyph.compartmentRef
          · rfl
          · exact absurd hb hpt
        simp [hpt', glyphCompartment, hlen, Except.bind, pure, Except.pure]
        rfl
  · intro c0 hcls hc0
    unfold processNormalGlyph
    rw [hcls, hgid]
    rcases hc0 with h0 | h0 <;> subst h0 <;> rcases hcr with h | h
    · simp [h, glyphCompartment, Except.bind, pure, Except.pure]
      rfl
    · by_cases hpt : pyTruthy glyph.compartmentRef = true
      · obtain ⟨cc, hcc⟩ := Option.isSome_iff_exists.mp h
        simp [hpt, hcc, glyphCompartment, Except.bind, pure, Except.pure]
        rfl
      · have hpt' : pyTruthy glyph.compartmentRef = false := by
          cases hb : pyTruthy glyph.compartmentRef
          · rfl
          · exact absurd hb hpt
        simp [hpt', glyphCompartment, Except.bind, pure, Except.pure]
        rfl
    · simp [h, glyphCompartment, Except.bind, pure, Except.pure]
      rfl
    · by_cases hpt : pyTruthy glyph.compartmentRef = true
      · obtain ⟨cc, hcc⟩ := Option.isSome_iff_exists.mp h
        simp [hpt, hcc, glyphCompartment, Except.bind, pure, Except.pure]
        rfl
      · have hpt' : pyTruthy glyph.compartmentRef = false := by
          cases hb : pyTruthy glyph.compartmentRef
          · rfl
          · exact absurd hb hpt
        simp [hpt', glyphCompartment, Except.bind, pure, Except.pure]
        rfl

/-- C6 witness: a macromolecule with two embedded references becomes
class `complex`; a simple chemical with two embedded references keeps
its class and its first reference. -/
theorem claim_C6_witness :
    (processNormalGlyph trivialCtx [] twoRefGlyph = Except.ok (some (some "g2",
      GlyphEntry.norm (some "g2") "complex" ⟨some "hgnc", some "1", some "Y"⟩ [] none))) ∧
    (processNormalGlyph trivialCtx [] twoRefChemGlyph = Except.ok (some (some "g3",
      GlyphEntry.norm (some "g3") "simple chemical" ⟨some "chebi", some "10", some "Z"⟩
        [] none))) := by
  constructor
  · have h := (claim_C6 trivialCtx [] twoRefGlyph "g2" rfl (Or.inl (by decide))
      (by decide)).1 rfl
    rw [h]
    rfl
  · have h := (claim_C6 trivialCtx [] twoRefChemGlyph "g3" rfl (Or.inl (by decide))
      (by decide)).2 "simple chemical" rfl (Or.inl rfl)
    rw [h]
    rfl

/-- Helper for C5: an entity built from the head of a reference list
satisfies the invariant. -/
theorem refsHeadEntity_inv (refs : List (String × String)) (lbl : Option String) :
    entityInvariant ⟨refs.head?.map (·.1), refs.head?.map (·.2), lbl⟩ := by
  cases hr : refs.head? <;> simp [entityInvariant, hr]

theorem processCompartment_inv {ctx : Ctx} {g : XGlyph} {k : Option String}
    {v : Compartment} (h : processCompartment ctx g = Except.ok (k, v)) :
    entityInvariant v.entity := by
  unfold processCompartment at h
  rcases hl : g.labels with _ | ⟨l, ls⟩ <;> rw [hl] at h
  · simp [except_bind_error] at h
  · simp only [except_bind_ok, except_pure, Except.ok.injEq, Prod.mk.injEq] at h
    obtain ⟨hk, hv⟩ := h
    subst hv
    cases hb : pyTruthy l.text
    · simp [entityInvariant, hb]
    · cases hg : ctx.ground ["go", "mesh"] (l.text.getD "") with
      | none => simp [entityInvariant, hb, hg]
      | some t => simp [entityInvariant, hb, hg]

theorem compartmentFold_inv (ctx : Ctx) (l : List XGlyph) :
    ∀ acc tbl : List (Option String × Compartment),
      (∀ p ∈ acc, entityInvariant p.2.entity) →
      l.foldlM (fun acc compartment => do
          let (k, v) ← processCompartment ctx compartment
          pure (dset acc k v)) acc = Except.ok tbl →
      ∀ p ∈ tbl, entityInvariant p.2.entity := by
  induction l with
  | nil =>
    intro acc tbl hacc h
    simp only [List.foldlM_nil, except_pure, Except.ok.injEq] at h
    subst h
    exact hacc
  | cons g l ih =>
    intro acc tbl hacc h
    rw [List.foldlM_cons] at h
    rcases hp : processCompartment ctx g with e | kv <;> rw [hp] at h
    · simp [except_bind_error] at h
    · obtain ⟨k, v⟩ := kv
      simp only [except_bind_ok, except_pure] at h
      refine ih (dset acc k v) tbl (fun p hp' => ?_) h
      rcases mem_dset hp' with he | he
      · rw [he]
        exact processCompartment_inv hp
      · exact hacc p he

theorem buildCompartments_inv {ctx : Ctx} {m : XMap}
    {tbl : List (Option String × Compartment)}
    (h : buildCompartments ctx m = Except.ok tbl) :
    ∀ p ∈ tbl, entityInvariant p.2.entity := by
  unfold buildCompartments at h
  exact compartmentFold_inv ctx (glyphsOfClass m "compartment") [] tbl (by simp) h

theorem processPhenotype_inv (ctx : Ctx) (g : XGlyph) :
    entryInvariant (processPhenotype ctx g).2 := by
  intro e he
  simp only [processPhenotype, GlyphEntry.entity, Option.some.injEq] at he
  rw [← he]
  exact refsHeadEntity_inv _ _

theorem phenotypeFold_inv (ctx : Ctx) (l : List XGlyph) :
    ∀ acc : List (Option String × GlyphEntry),
      (∀ p ∈ acc, entryInvariant p.2) →
      ∀ p ∈ l.foldl (fun acc phenotype_glyph =>
          let (k, v) := processPhenotype ctx phenotype_glyph
          dset acc k v) acc, entryInvariant p.2 := by
  induction l with
  | nil => intro acc hacc; simpa using hacc
  | cons g l ih =>
    intro acc hacc
    rw [List.foldl_cons]
    apply ih
    intro p hp'
    rcases hm : processPhenotype ctx g with ⟨k, v⟩
    rw [hm] at hp'
    rcases mem_dset hp' with he | he
    · rw [he]
      have := processPhenotype_inv ctx g
      rw [hm] at this
      exact this
    · exact hacc p he

theorem processNormalGlyph_inv {ctx : Ctx} {compartments : List (Option String × Compartment)}
    {glyph : XGlyph} {k : Option String} {v : GlyphEntry}
    (h : processNormalGlyph ctx compartments glyph = Except.ok (some (k, v))) :
    entryInvariant v := by
  unfold processNormalGlyph at h
  rcases hcls : glyph.cls with _ | c <;> rw [hcls] at h <;> dsimp only at h
  · simp [except_pure] at h
  · by_cases h1 : (c == "compartment" || c == "process" || c == "and" ||
        c == "phenotype" || c == "complex") = true
    · rw [if_pos h1] at h
      simp [except_pure] at h
    · rw [if_neg h1] at h
      by_cases h2 : (!(c == "macromolecule" || c == "simple chemical" ||
          c == "nucleic acid feature")) = true
      · rw [if_pos h2] at h
        simp [except_pure] at h
      · rw [if_neg h2] at h
        rcases hid : glyph.id with _ | gid <;> rw [hid] at h <;> dsimp only at h
        · simp [except_pure] at h
        · cases hb : pyTruthy glyph.compartmentRef <;> rw [hb] at h
          · simp only [Bool.false_eq_true, if_false, except_bind_ok, except_pure,
              Except.ok.injEq, Option.some.injEq, Prod.mk.injEq] at h
            obtain ⟨hk, hv⟩ := h
            subst hv
            intro e he
            simp only [GlyphEntry.entity, Option.some.injEq] at he
            rw [← he]
            exact refsHeadEntity_inv _ _
          · rcases hget : dget compartments glyph.compartmentRef with _ | cc <;>
              rw [hget] at h
            · simp [except_bind_error] at h
            · simp only [if_true, except_bind_ok, except_pure,
                Except.ok.injEq, Option.some.injEq, Prod.mk.injEq] at h
              obtain ⟨hk, hv⟩ := h
              subst hv
              intro e he
              simp only [GlyphEntry.entity, Option.some.injEq] at he
              rw [← he]
              exact refsHeadEntity_inv _ _

theorem normalFold_inv (ctx : Ctx) (compartments : List (Option String × Compartment))
    (l : List XGlyph) :
    ∀ acc tbl : List (Option String × GlyphEntry),
      (∀ p ∈ acc, entryInvariant p.2) →
      l.foldlM (fun acc glyph => do
          match ← processNormalGlyph ctx compartments glyph with
          | none => pure acc
          | some (k, v) => pure (dset acc k v)) acc = Except.ok tbl →
      ∀ p ∈ tbl, entryInvariant p.2 := by
  induction l with
  | nil =>
    intro acc tbl hacc h
    simp only [List.foldlM_nil, except_pure, Except.ok.injEq] at h
    subst h
    exact hacc
  | cons g l ih =>
    intro acc tbl hacc h
    rw [List.foldlM_cons] at h
    rcases hp : processNormalGlyph ctx compartments g with e | r <;> rw [hp] at h
    · simp [except_bind_error] at h
    · rcases r with _ | ⟨k, v⟩
      · simp only [except_bind_ok, except_pure] at h
        exact ih acc tbl hacc h
      · simp only [except_bind_ok, except_pure] at h
        refine ih (dset acc k v) tbl (fun p hp' => ?_) h
        rcases mem_dset hp' with he | he
        · rw [he]
          exact processNormalGlyph_inv hp
        · exact hacc p he

theorem processComplexGlyph_inv (ctx : Ctx) (g : XGlyph) :
    entryInvariant (processComplexGlyph ctx g).2 := by
  intro e he
  simp [processComplexGlyph, GlyphEntry.entity] at he

theorem complexFold_inv (ctx : Ctx) (l : List XGlyph) :
    ∀ acc : List (Option String × GlyphEntry),
      (∀ p ∈ acc, entryInvariant p.2) →
      ∀ p ∈ l.foldl (fun acc complex_glyph =>
          let (k, v) := processComplexGlyph ctx complex_glyph
          dset acc k v) acc, entryInvariant p.2 := by
  induction l with
  | nil => intro acc hacc; simpa using hacc
  | cons g l ih =>
    intro acc hacc
    rw [List.foldl_cons]
    apply ih
    intro p hp'
    rcases hm : processComplexGlyph ctx g with ⟨k, v⟩
    rw [hm] at hp'
    rcases mem_dset hp' with he | he
    · rw [he]
      have := processComplexGlyph_inv ctx g
      rw [hm] at this
      exact this
    · exact hacc p he

theorem buildGlyphs_inv {ctx : Ctx} {compartments : List (Option String × Compartment)}
    {m : XMap} {glyphs : List (Option String × GlyphEntry)}
    (h : buildGlyphs ctx compartments m = Except.ok glyphs) :
    ∀ p ∈ glyphs, entryInvariant p.2 := by
  unfold buildGlyphs at h
  dsimp only at h
  rcases hn : buildNormalGlyphs ctx compartments m (buildPhenotypes ctx m []) with e | tbl <;>
    rw [hn] at h
  · rw [except_bind_error] at h
    cases h
  · rw [except_bind_ok] at h
    rw [except_pure] at h
    obtain h := (Except.ok.injEq _ _ ▸ h : buildComplexes ctx m tbl = glyphs)
    subst h
    have hphen : ∀ p ∈ buildPhenotypes ctx m [], entryInvariant p.2 := by
      unfold buildPhenotypes
      exact phenotypeFold_inv ctx (glyphsOfClass m "phenotype") [] (by simp)
    have hnorm : ∀ p ∈ tbl, entryInvariant p.2 := by
      unfold buildNormalGlyphs at hn
      exact normalFold_inv ctx compartments (normalPassInput m) _ tbl hphen hn
    unfold buildComplexes
    exact complexFold_inv ctx (glyphsOfClass m "complex") tbl hnorm

/-! ### Totality lemmas for C1 -/

theorem dmem_dset_self {α β : Type} [BEq α] [LawfulBEq α] (d : List (α × β)) (k : α)
    (v : β) : dmem (dset d k v) k = true := by
  rw [dmem_iff, keys_dset]
  cases h : dmem d k
  · simp
  · simp only [if_true]
    exact (dmem_iff d k).mp h

theorem dmem_dset_of_dmem {α β : Type} [BEq α] [LawfulBEq α] {d : List (α × β)} {k' : α}
    (k : α) (v : β) (h : dmem d k' = true) : dmem (dset d k v) k' = true := by
  rw [dmem_iff, keys_dset]
  cases hm : dmem d k
  · simp only [Bool.false_eq_true, if_false, List.mem_append]
    exact Or.inl ((dmem_iff d k').mp h)
  · simp only [if_true]
    exact (dmem_iff d k').mp h

theorem processCompartment_ok (ctx : Ctx) (g : XGlyph) (h : g.labels ≠ []) :
    ∃ v, processCompartment ctx g = Except.ok (g.id, v) := by
  rcases hl : g.labels with _ | ⟨l, ls⟩
  · exact absurd hl h
  · exact ⟨_, by unfold processCompartment; rw [hl]; rfl⟩

theorem compartmentFold_ok (ctx : Ctx) (l : List XGlyph) :
    ∀ acc : List (Option String × Compartment), (∀ g ∈ l, g.labels ≠ []) →
      ∃ tbl, l.foldlM (fun acc compartment => do
          let (k, v) ← processCompartment ctx compartment
          pure (dset acc k v)) acc = Except.ok tbl ∧
        ∀ k, (dmem acc k = true ∨ k ∈ l.map XGlyph.id) → dmem tbl k = true := by
  induction l with
  | nil =>
    intro acc _
    refine ⟨acc, rfl, fun k hk => ?_⟩
    rcases hk with hk | hk
    · exact hk
    · simp at hk
  | cons g l ih =>
    intro acc h
    obtain ⟨v, hv⟩ := processCompartment_ok ctx g (h g (by simp))
    obtain ⟨tbl, htbl, hkeys⟩ := ih (dset acc g.id v) (fun g' hg' => h g' (by simp [hg']))
    refine ⟨tbl, ?_, ?_⟩
    · rw [List.foldlM_cons, hv]
      simpa [except_bind_ok, except_pure] using htbl
    · intro k hk
      apply hkeys
      rcases hk with hk | hk
      · exact Or.inl (dmem_dset_of_dmem g.id v hk)
      · rw [List.map_cons] at hk
        rcases List.mem_cons.mp hk with hk' | hk'
        · subst hk'
          exact Or.inl (dmem_dset_self acc g.id v)
        · exact Or.inr hk'

theorem buildCompartments_ok (ctx : Ctx) (m : XMap)
    (hlab : ∀ g ∈ glyphsOfClass m "compartment", g.labels ≠ []) :
    ∃ tbl, buildCompartments ctx m = Except.ok tbl ∧
      ∀ k, k ∈ (glyphsOfClass m "compartment").map XGlyph.id → dmem tbl k = true := by
  obtain ⟨tbl, h, hk⟩ := compartmentFold_ok ctx (glyphsOfClass m "compartment") [] hlab
  exact ⟨tbl, by unfold buildCompartments; exact h, fun k hkk => hk k (Or.inr hkk)⟩

theorem processNormalGlyph_ok (ctx : Ctx)
    (compartments : List (Option String × Compartment)) (glyph : XGlyph)
    (h : retainedGlyph glyph = true → pyTruthy glyph.compartmentRef = true →
      (dget compartments glyph.compartmentRef).isSome = true) :
    ∃ r, processNormalGlyph ctx compartments glyph = Except.ok r := by
  unfold processNormalGlyph
  rcases hcls : glyph.cls with _ | c
  · exact ⟨none, rfl⟩
  · dsimp only
    by_cases h1 : (c == "compartment" || c == "process" || c == "and" ||
        c == "phenotype" || c == "complex") = true
    · rw [if_pos h1]
      exact ⟨none, rfl⟩
    · rw [if_neg h1]
      by_cases h2 : (!(c == "macromolecule" || c == "simple chemical" ||
          c == "nucleic acid feature")) = true
      · rw [if_pos h2]
        exact ⟨none, rfl⟩
      · rw [if_neg h2]
        rcases hid : glyph.id with _ | gid
        · exact ⟨none, rfl⟩
        · dsimp only
          have h2' : (c == "macromolecule" || c == "simple chemical" ||
              c == "nucleic acid feature") = true := by
            cases hb : (c == "macromolecule" || c == "simple chemical" ||
                c == "nucleic acid feature")
            · exact absurd (by rw [hb]; rfl) h2
            · rfl
          have hret : retainedGlyph glyph = true := by
            unfold retainedGlyph
            rw [hcls, hid]
            have e1 : (some c == some "macromolecule") = (c == "macromolecule") := rfl
            have e2 : (some c == some "simple chemical") = (c == "simple chemical") := rfl
            have e3 : (some c == some "nucleic acid feature") =
              (c == "nucleic acid feature") := rfl
            rw [e1, e2, e3, h2']
            rfl
          cases hb : pyTruthy glyph.compartmentRef
          · exact ⟨_, rfl⟩
          · have hsome := h hret hb
            rcases hget : dget compartments glyph.compartmentRef with _ | cc
            · rw [hget] at hsome
              cases hsome
            · exact ⟨_, rfl⟩

theorem normalFold_ok (ctx : Ctx) (compartments : List (Option String × Compartment))
    (l : List XGlyph) :
    ∀ acc : List (Option String × GlyphEntry),
      (∀ g ∈ l, retainedGlyph g = true → pyTruthy g.compartmentRef = true →
        (dget compartments g.compartmentRef).isSome = true) →
      ∃ tbl, l.foldlM (fun acc glyph => do
          match ← processNormalGlyph ctx compartments glyph with
          | none => pure acc
          | some (k, v) => pure (dset acc k v)) acc = Except.ok tbl := by
  induction l with
  | nil => intro acc _; exact ⟨acc, rfl⟩
  | cons g l ih =>
    intro acc h
    obtain ⟨r, hr⟩ := processNormalGlyph_ok ctx compartments g (h g (by simp))
    rcases r with _ | ⟨k, v⟩
    · obtain ⟨tbl, htbl⟩ := ih acc (fun g' hg' => h g' (by simp [hg']))
      refine ⟨tbl, ?_⟩
      rw [List.foldlM_cons, hr]
      simpa [except_bind_ok, except_pure] using htbl
    · obtain ⟨tbl, htbl⟩ := ih (dset acc k v) (fun g' hg' => h g' (by simp [hg']))
      refine ⟨tbl, ?_⟩
      rw [List.foldlM_cons, hr]
      simpa [except_bind_ok, except_pure] using htbl

theorem buildGlyphs_ok (ctx : Ctx) (compartments : List (Option String × Compartment))
    (m : XMap)
    (h : ∀ g ∈ normalPassInput m, retainedGlyph g = true →
      pyTruthy g.compartmentRef = true →
      (dget compartments g.compartmentRef).isSome = true) :
    ∃ glyphs, buildGlyphs ctx compartments m = Except.ok glyphs := by
  obtain ⟨tbl, htbl⟩ :=
    normalFold_ok ctx compartments (normalPassInput m) (buildPhenotypes ctx m []) h
  have hb : buildNormalGlyphs ctx compartments m (buildPhenotypes ctx m []) =
      Except.ok tbl := htbl
  refine ⟨buildComplexes ctx m tbl, ?_⟩
  unfold buildGlyphs
  dsimp only
  rw [hb, except_bind_ok]
  rfl

theorem computeTitle_ok (m : XMap)
    (hbody : ∀ b, m.bodies.head? = some b → b.text ≠ none) :
    ∃ t, computeTitle m = Except.ok t := by
  unfold computeTitle
  rcases hb : m.bodies with _ | ⟨b, bs⟩
  · exact ⟨none, rfl⟩
  · dsimp only
    rcases ht : b.text with _ | t
    · exact absurd ht (hbody b (by rw [hb]; rfl))
    · exact ⟨some t.trim, rfl⟩

/-- C1 (amended): a document with exactly one map element parses to a
document result provided its compartment glyphs each have a label
child, each retained glyph's truthy compartment reference points at a
declared compartment, and the first notes body (if any) has text;
besides the multiple-maps error these three structural defects also
raise (`IndexError`, `KeyError`, `AttributeError`), while missing
glyph ids/classes, failed groundings and bad arcs are absorbed. -/
theorem claim_C1 (ctx : Ctx) (tree : XTree) (m : XMap) (hm : tree.maps = [m])
    (hlab : ∀ g ∈ glyphsOfClass m "compartment", g.labels ≠ [])
    (hcomp : ∀ g ∈ normalPassInput m, retainedGlyph g = true →
      pyTruthy g.compartmentRef = true →
      g.compartmentRef ∈ (glyphsOfClass m "compartment").map XGlyph.id)
    (hbody : ∀ b, m.bodies.head? = some b → b.text ≠ none) :
    ∃ r, parse_sbgn_tree ctx tree = Except.ok r := by
  obtain ⟨ctbl, hc, hkeys⟩ := buildCompartments_ok ctx m hlab
  have hcomp' : ∀ g ∈ normalPassInput m, retainedGlyph g = true →
      pyTruthy g.compartmentRef = true →
      (dget ctbl g.compartmentRef).isSome = true := by
    intro g hg hr hp
    rw [dget_isSome_iff]
    exact hkeys _ (hcomp g hg hr hp)
  obtain ⟨gtbl, hgt⟩ := buildGlyphs_ok ctx ctbl m hcomp'
  obtain ⟨ttl, htt⟩ := computeTitle_ok m hbody
  unfold parse_sbgn_tree
  rw [hm, if_neg (by simp)]
  dsimp only
  unfold handle_sbgn_map
  refine exists_ok_bind hc ?_
  dsimp only
  rcases hpi : buildProcessIndex m with ⟨port_to_process, process_to_ports⟩
  dsimp only
  rcases hai : buildAndIndex m with ⟨ports_to_and, and_to_ports⟩
  dsimp only
  refine exists_ok_bind hgt ?_
  dsimp only
  rcases hbr : buildReified (buildArcs
      ⟨gtbl, port_to_process, process_to_ports, ports_to_and, and_to_ports⟩ m).arcs with
    ⟨reified_arcs, direct_arcs⟩
  dsimp only
  refine exists_ok_bind htt ?_
  exact ⟨_, rfl⟩

/-- C1 witness: the one-map document whose only glyph is a labelled
macromolecule parses successfully. -/
theorem claim_C1_witness :
    ∃ r, parse_sbgn_tree trivialCtx ⟨[refGlyphMap]⟩ = Except.ok r :=
  claim_C1 trivialCtx ⟨[refGlyphMap]⟩ refGlyphMap rfl (by decide) (by decide)
    (fun b hb => Option.noConfusion hb)

/-- C1 counterexample: a document with exactly one map element whose
only glyph is a compartment without a label child makes the parse
raise `IndexError` instead of completing with a document result. -/
theorem claim_C1_cex :
    parse_sbgn_tree trivialCtx ⟨[noLabelCompartmentMap]⟩ =
      Except.error PyErr.indexError := rfl

/-- C5 (amended): every entity reference of the compartment table and
of the `entity` field of phenotype and normal glyph entries satisfies
the invariant — a present vocabulary prefix forces a present
identifier. Complex constituents are excluded: their prefix is
hardcoded while their identifier comes from a static lookup that may
miss. -/
theorem claim_C5 (ctx : Ctx) (m : XMap)
    (compartments : List (Option String × Compartment))
    (glyphs : List (Option String × GlyphEntry))
    (h1 : buildCompartments ctx m = Except.ok compartments)
    (h2 : buildGlyphs ctx compartments m = Except.ok glyphs) :
    ∀ e ∈ nonComplexEntities compartments glyphs, entityInvariant e := by
  intro e he
  rcases List.mem_append.mp he with hc | hg
  · obtain ⟨p, hp, hpe⟩ := List.mem_map.mp hc
    rw [← hpe]
    exact buildCompartments_inv h1 p hp
  · obtain ⟨p, hp, hpe⟩ := List.mem_filterMap.mp hg
    exact buildGlyphs_inv h2 p hp e hpe

/-- C5 witness: the invariant instantiated on the map with one
embedded-reference macromolecule. -/
theorem claim_C5_witness :
    entityInvariant ⟨some "hgnc", some "1234", some "X"⟩ :=
  claim_C5 trivialCtx refGlyphMap []
    [(some "g1", GlyphEntry.norm (some "g1") "macromolecule"
      ⟨some "hgnc", some "1234", some "X"⟩ [] none)]
    rfl rfl ⟨some "hgnc", some "1234", some "X"⟩ (by decide)

/-- C5 counterexample: in the glyph table of a document whose only
glyph is a complex labelled `FOO` (with an HGNC table that misses
`FOO`), a constituent entity carries the present prefix `hgnc` with an
absent identifier, violating the claimed invariant. -/
theorem claim_C5_cex :
    buildCompartments trivialCtx fooComplexMap = Except.ok [] ∧
    buildGlyphs trivialCtx [] fooComplexMap = Except.ok [(some "x1",
      GlyphEntry.cplx (some "x1") "FOO"
        [(some "FOO", ⟨⟨some "hgnc", none, some "FOO"⟩, none⟩)])] ∧
    (Entity.mk (some "hgnc") none (some "FOO")) ∈
      allEntities [] [(some "x1", GlyphEntry.cplx (some "x1") "FOO"
        [(some "FOO", ⟨⟨some "hgnc", none, some "FOO"⟩, none⟩)])] ∧
    ¬ entityInvariant ⟨some "hgnc", none, some "FOO"⟩ :=
  ⟨rfl, rfl, by decide, fun h => absurd (h rfl) (by decide)⟩

/-- C8 witness: port `p1` of process `P1` to glyph `g9`, and `g9` to
`g9` directly. -/
theorem claim_C8_witness :
    (buildReified (buildArcs exTables ⟨[], [⟨some "a1", some "catalysis", some "p1", some "g9"⟩], []⟩).arcs =
       ([("P1", ⟨"P1", some [("catalysis", [⟨some "a1", "catalysis", exEntry⟩])], none⟩)], [])) ∧
    (buildReified (buildArcs exTables ⟨[], [⟨some "a2", some "production", some "g9", some "g9"⟩], []⟩).arcs =
       ([], [⟨some "a2", "production", exEntry, exEntry⟩])) :=
  ⟨(claim_C8 exTables "a1" "catalysis" "p1" "g9" "P1" exEntry exEntry exEntry).1
      (by decide) (by decide) (by decide) (by decide) (by decide),
   (claim_C8 exTables "a2" "production" "g9" "g9" "P1" exEntry exEntry exEntry).2
      (by decide) (by decide)⟩

end Sbgnml
